import Mathlib

/-!
# Verification of the GenshinProject grounded retrieval-and-grading core

A shallow embedding, in Lean 4, of the parts of the repository that the
verified claims are about:

* `src/retrieval/search_memory.py` — the vector retrieval tool: alias
  resolution, character-filter construction, the expanding search loop,
  deduplication by `(task_id, event_order)`, and the character-filter
  fallback;
* `src/ingestion/indexer.py` — the post-processing that `VectorIndexer.search`
  applies to the vector store's raw answer (stable time sort and truncation);
* `src/agent/grader.py` — `AnswerGrader.grade`: hard thresholds and the
  default verdict used when the grading LLM's output cannot be parsed;
* `src/agent/refiner.py` — `QueryRefiner.refine` and its keyword fallback;
* `src/agent/agent.py` — the progressive `search_memory` limit table used by
  `chat_with_grading`.

External collaborators (the Qdrant vector store, the Neo4j fulltext index,
the embedder and the LLMs) are modelled as explicit function parameters:
the embedding is parametric in them, and theorems quantify over them or
hypothesise exactly the contracts the source code relies on.

Python `float` scores are modelled as `Int`: the code only ever compares
scores, never computes with them, so any linear order is a faithful model
of the order structure the code uses.
-/

namespace GenshinProof

/-! ## Data model: vector-store records

`VectorIndexer.search` (src/src/ingestion/indexer.py) returns dictionaries
`{"id": …, "score": …, "payload": …}` where the payload carries the chunk
text and its `task_id`, `chapter_number`, `event_order` metadata.  Payload
fields are read with `payload.get(key)` / `payload.get(key, default)`, so a
field can be absent: absent fields are modelled with `Option`. -/

/-- Payload of one vector-store point (the chunk metadata read by
`search_memory` and by the time sort in `VectorIndexer.search`). -/
structure Payload where
  task_id : Option String
  event_order : Option Int
  chapter_number : Option Int
  text : String
  deriving DecidableEq, Repr

/-- One raw search result: `{"id", "score", "payload"}` as built in
`VectorIndexer.search`.  The `id` field is never read by the code under
verification, so it is omitted. -/
structure SearchResult where
  score : Int
  payload : Payload
  deriving DecidableEq, Repr

/-- The composite deduplication key `(payload.get("task_id"),
payload.get("event_order"))` used by `_deduplicate_results`
(src/src/retrieval/search_memory.py line 146). -/
def dedupKey (r : SearchResult) : Option String × Option Int :=
  (r.payload.task_id, r.payload.event_order)

/-- Worker for `deduplicateResults`: a Python `dict` keeps the first value
inserted for each key and preserves insertion order, so the loop keeps the
first result seen for every dedup key. `seen` is the set of keys already in
the dict. -/
def dedupAux (seen : List (Option String × Option Int)) :
    List SearchResult → List SearchResult
  | [] => []
  | r :: rs =>
    if dedupKey r ∈ seen then dedupAux seen rs
    else r :: dedupAux (dedupKey r :: seen) rs

/-- `_deduplicate_results` (src/src/retrieval/search_memory.py lines
131–150): keep, for each `(task_id, event_order)` key, the first result in
which the key occurs, preserving the order of first occurrences. -/
def deduplicateResults (results : List SearchResult) : List SearchResult :=
  dedupAux [] results

/-! ## `VectorIndexer.search` post-processing (src/src/ingestion/indexer.py)

After querying the vector store, `VectorIndexer.search` either returns the
store's answer unchanged (`sort_by="relevance"`, where it asked for `limit`
points) or — for `sort_by="time"`, where it asked for `limit * 2` points —
sorts the answer in place by the key
`(payload.get("chapter_number", 0), payload.get("event_order", 0))`
(Python tuples compare lexicographically; `list.sort` is stable) and then
truncates back to `limit`.  Python's stable sort is modelled by a stable
insertion sort: a stable sort's output is uniquely determined by the input
and the comparison key, so any stable sort is a faithful embedding. -/

/-- The time-sort key `(chapter_number or 0, event_order or 0)`. -/
def timeKey (r : SearchResult) : Int × Int :=
  (r.payload.chapter_number.getD 0, r.payload.event_order.getD 0)

/-- Lexicographic comparison of Python `(chapter, event_order)` tuples. -/
def timeKeyLE (a b : Int × Int) : Prop :=
  a.1 < b.1 ∨ (a.1 = b.1 ∧ a.2 ≤ b.2)

instance (a b : Int × Int) : Decidable (timeKeyLE a b) := by
  unfold timeKeyLE; infer_instance

/-- Stable insertion of one element: `x` is placed before the first element
whose key is ≥ its own, so elements with equal keys keep their original
relative order (the element arriving earlier in the original list stays
earlier). -/
def insertByTime (x : SearchResult) : List SearchResult → List SearchResult
  | [] => [x]
  | y :: ys =>
    if timeKeyLE (timeKey x) (timeKey y) then x :: y :: ys
    else y :: insertByTime x ys

/-- Stable sort by `timeKey` ascending — the model of
`results.sort(key=lambda x: (chapter_number, event_order))`. -/
def sortByTime (l : List SearchResult) : List SearchResult :=
  l.foldr insertByTime []

/-- The post-processing `VectorIndexer.search` applies to the raw
vector-store answer (src/src/ingestion/indexer.py lines 249–262): identity
unless `sort_by == "time"`, in which case stable time sort followed by
truncation to `limit`. -/
def postProcess (sortBy : String) (limit : Nat) (results : List SearchResult) :
    List SearchResult :=
  if sortBy = "time" then (sortByTime results).take limit else results

/-! ## Alias resolution (src/src/retrieval/search_memory.py lines 31–107)

`CHARACTER_ALIASES` is imported from `src/config/aliases.py`, a module that
is not part of the source tree under verification; the spec (§4.1, §6)
describes it as a static curated mapping from alias to canonical name.
Modelled from the spec: an association list with unique keys (a Python
`dict`), iterated in insertion order.  The Neo4j fulltext resolution
`GraphSearcher._resolve_canonical_name` queries an external store and can
raise (connection errors, missing index): it is modelled as an oracle
returning `Except`, where `.error` stands for a raised exception. -/

/-- The environment of `_resolve_character_alias` /
`_get_all_character_names`: the static alias table and the graph-store
resolution oracle. -/
structure AliasEnv where
  table : List (String × String)
  graphResolve : String → Except String String

/-- Lookup in the static table: `name in CHARACTER_ALIASES` followed by
`CHARACTER_ALIASES[name]` (keys of a Python dict are unique, so the first
match is the only match). -/
def tableLookup (t : List (String × String)) (name : String) : Option String :=
  (t.find? (fun p => p.1 == name)).map (fun p => p.2)

/-- `_resolve_character_alias` (src/src/retrieval/search_memory.py lines
31–61): manual table first, then the fulltext index; if the graph call
raises, the input name is returned unchanged. -/
def resolveCharacterAlias (env : AliasEnv) (name : String) : String :=
  match tableLookup env.table name with
  | some canonical => canonical
  | none =>
    match env.graphResolve name with
    | .ok canonical => canonical
    | .error _ => name

/-- `set.add`: Python set membership modelled as an insertion-ordered
duplicate-free list.  Only membership and cardinality of the resulting set
are consumed by `search_memory` (Python set iteration order is arbitrary). -/
def setInsert (s : List String) (x : String) : List String :=
  if x ∈ s then s else s ++ [x]

/-- The `for alias, canon in CHARACTER_ALIASES.items()` loops of
`_get_all_character_names`: add every alias whose canonical is `canonical`. -/
def addAliasesOf (t : List (String × String)) (canonical : String)
    (s : List String) : List String :=
  t.foldl (fun acc p => if p.2 == canonical then setInsert acc p.1 else acc) s

/-- `_get_all_character_names` (src/src/retrieval/search_memory.py lines
64–107): the input name, plus table aliases of the same canonical, plus the
graph-resolved canonical when the graph call succeeds with a different
name; a raised graph exception is swallowed. -/
def getAllCharacterNames (env : AliasEnv) (name : String) : List String :=
  let names := [name]
  let names :=
    match tableLookup env.table name with
    | some canonical => addAliasesOf env.table canonical (setInsert names canonical)
    | none => addAliasesOf env.table name names
  match env.graphResolve name with
  | .ok canonical => if canonical ≠ name then setInsert names canonical else names
  | .error _ => names

/-! ## `search_memory` (src/src/retrieval/search_memory.py lines 153–323) -/

/-- The Qdrant filter built by `search_memory`: `MatchAny` over all
expanded names when more than one, otherwise `MatchValue` on the resolved
canonical. -/
inductive CharFilter where
  | matchAny (names : List String)
  | matchValue (name : String)
  deriving DecidableEq, Repr

/-- The external world seen by `search_memory`: the alias environment and
the composition of the embedder with the vector store's `query_points`
(both are deterministic external oracles, so their composition is one
oracle from the query text, the fetch limit and the filter to a result
list). -/
structure VectorStoreEnv where
  aliasEnv : AliasEnv
  query_points : String → Nat → Option CharFilter → List SearchResult

/-- `VectorIndexer.search` (src/src/ingestion/indexer.py lines 200–262):
ask the store for `limit` points (`limit * 2` when not sorting by
relevance), then post-process. -/
def indexerSearch (env : VectorStoreEnv) (queryText : String) (limit : Nat)
    (filt : Option CharFilter) (sortBy : String) : List SearchResult :=
  let searchLimit := if sortBy = "relevance" then limit else limit * 2
  postProcess sortBy limit (env.query_points queryText searchLimit filt)

/-- The expanding search loop of `search_memory` (lines 217–234 and, for
the fallback, 249–265): fetch, deduplicate, stop when the deduplicated
count reaches the target or the fetch size exceeds the maximum, otherwise
double the fetch size.  The loop is written with explicit fuel; starting
from `fetchLimit = targetLimit` the Python loop body runs at most four
times (`t, 2t, 4t, 8t`; when `t = 0` the very first `len(unique) >= target`
test breaks), so fuel `8` makes the embedding exact.  The second component
counts vector-store fetches actually performed. -/
def expandLoop (env : VectorStoreEnv) (queryText : String)
    (filt : Option CharFilter) (sortBy : String) (targetLimit maxFetch : Nat) :
    Nat → Nat → List SearchResult × Nat → List SearchResult × Nat
  | _, 0, acc => acc
  | fetchLimit, fuel + 1, (unique, fetches) =>
    if fetchLimit ≤ maxFetch then
      let raw := indexerSearch env queryText fetchLimit filt sortBy
      let unique' := deduplicateResults raw
      if targetLimit ≤ unique'.length then (unique', fetches + 1)
      else
        expandLoop env queryText filt sortBy targetLimit maxFetch
          (fetchLimit * 2) fuel (unique', fetches + 1)
    else (unique, fetches)

/-- What `search_memory` computes before rendering its textual report: the
final result list (line 269), whether the character-filter fallback was
taken, and how many vector-store fetches happened. -/
structure MemReport where
  results : List SearchResult
  fallbackUsed : Bool
  fetches : Nat
  deriving Repr

/-- `search_memory` (src/src/retrieval/search_memory.py lines 153–274).
Python truthiness is preserved: an empty `characters` string behaves like
`None` (line 197 `if characters:`), and the fallback fires only when the
filtered pass produced nothing, a filter was built, and the resolved
canonical is a non-empty string (line 239). -/
def searchMemory (env : VectorStoreEnv) (query : String)
    (characters : Option String) (sortBy : String) (limit : Nat) : MemReport :=
  let cOpt : Option String :=
    match characters with
    | some c => if c = "" then none else some c
    | none => none
  let expanded : Option (List String × String) :=
    cOpt.map (fun c =>
      (getAllCharacterNames env.aliasEnv c, resolveCharacterAlias env.aliasEnv c))
  let filt : Option CharFilter :=
    match expanded with
    | none => none
    | some (allNames, resolved) =>
      if 1 < allNames.length then some (.matchAny allNames)
      else some (.matchValue resolved)
  let resolvedCharacters : String := (expanded.map (fun p => p.2)).getD ""
  let targetLimit := min limit 20
  let maxFetch := targetLimit * 8
  let first := expandLoop env query filt sortBy targetLimit maxFetch
    targetLimit 8 ([], 0)
  if first.1.isEmpty && filt.isSome && !(resolvedCharacters == "") then
    let augQuery := resolvedCharacters ++ " " ++ query
    let second := expandLoop env augQuery none sortBy targetLimit maxFetch
      targetLimit 8 ([], 0)
    { results := second.1.take targetLimit
      fallbackUsed := true
      fetches := first.2 + second.2 }
  else
    { results := first.1.take targetLimit
      fallbackUsed := false
      fetches := first.2 }

/-- The two shapes the string returned by `search_memory` can take: the
"not found" suggestion message (lines 276–287) when the final result list
is empty, or the formatted chunk report (lines 289–323).  The function has
no error-return shape. -/
inductive ReportKind where
  | notFoundReport
  | resultsReport
  deriving DecidableEq, Repr

/-- Which of the two report shapes `search_memory` renders (line 276
branches on `if not results`). -/
def searchMemoryReportKind (env : VectorStoreEnv) (query : String)
    (characters : Option String) (sortBy : String) (limit : Nat) : ReportKind :=
  if (searchMemory env query characters sortBy limit).results.isEmpty then
    .notFoundReport
  else .resultsReport

/-! ## The answer grader (src/src/agent/grader.py)

`AnswerGrader.grade` formats the transcript, calls the grading LLM inside a
`try`, extracts the first `{`…last `}` slice of the response, parses it as
JSON, patches missing `score` / `reason` / `suggestion` fields, then applies
the hard thresholds.  Every failure inside the `try` — no braces found,
`json.JSONDecodeError`, or any other exception (network faults included) —
is caught and converted into `_default_grade(...)`.

The grader's input is modelled at the point after the `try` has classified
the LLM interaction: either a successfully parsed JSON object (restricted,
as the code's own prompt demands, to a JSON object whose `scores` member is
an object of integer values — any other shape raises inside the `try` and
lands in the generic-exception case), or one of the three failure cases. -/

/-- `DEPTH_HARD_THRESHOLD` (src/src/agent/grader.py line 15). -/
def DEPTH_HARD_THRESHOLD : Int := 8

/-- `CITATION_HARD_THRESHOLD` (line 16, disabled by being 0). -/
def CITATION_HARD_THRESHOLD : Int := 0

/-- `EVIDENCE_HARD_THRESHOLD` (line 17). -/
def EVIDENCE_HARD_THRESHOLD : Int := 5

/-- `SCORE_THRESHOLD` (line 18). -/
def SCORE_THRESHOLD : Int := 70

/-- `result.get(key, default)` on the parsed `scores` JSON object, modelled
as an association list with unique keys (a parsed JSON object). -/
def dictGetInt (d : List (String × Int)) (key : String) (dflt : Int) : Int :=
  match d.find? (fun p => p.1 == key) with
  | some p => p.2
  | none => dflt

/-- A successfully parsed grader JSON object: the fields the code reads,
each optional because `dict.get` tolerates absence.  `scores` is the JSON
sub-object of sub-scores as an association list in JSON order. -/
structure ParsedVerdict where
  score : Option Int
  scores : Option (List (String × Int))
  reason : Option String
  suggestion : Option String
  deriving DecidableEq, Repr

/-- The grading-LLM interaction outcome as classified by the `try` block of
`AnswerGrader.grade`: a parsed JSON object, a response with no `{`…`}`
slice (line 264), a slice that is not valid JSON (line 267), or any other
exception raised during the call or the threshold logic (line 270). -/
inductive GraderLLMResponse where
  | parsed (v : ParsedVerdict)
  | noJson
  | badJson
  | exn (msg : String)
  deriving DecidableEq, Repr

/-- The verdict dictionary `AnswerGrader.grade` returns.  In the parsed
case the input dictionary is returned mutated in place, so `scores` stays
exactly what the LLM produced (absent if it was absent); the remaining
fields are always present when `grade` returns. -/
structure GradeResult where
  scores : Option (List (String × Int))
  score : Int
  passed : Bool
  fail_reason : Option String
  reason : String
  suggestion : String
  deriving DecidableEq, Repr

/-- `AnswerGrader._default_grade` (src/src/agent/grader.py lines 274–290). -/
def defaultGrade (reason : String) : GradeResult :=
  { scores := some [("tool_usage", 0), ("evidence", 0), ("completeness", 0),
      ("citation", 0), ("depth", 0)]
    score := 0
    passed := false
    fail_reason := some reason
    reason := reason
    suggestion := "请重试或检查答案格式" }

/-- The depth sub-score of a verdict, read the way the code reads it:
`result.get("scores", {}).get("depth", 0)`. -/
def depthOf (g : GradeResult) : Int :=
  dictGetInt (g.scores.getD []) "depth" 0

/-- `AnswerGrader.grade` (src/src/agent/grader.py lines 172–272): patch the
missing fields, then check the hard thresholds in priority order — depth,
citation, evidence, total score — and otherwise pass.  All three failure
inputs degrade to `_default_grade` with the diagnostic reason the code uses
at the corresponding `except` site. -/
def grade (resp : GraderLLMResponse) : GradeResult :=
  match resp with
  | .noJson => defaultGrade "无法解析评估结果"
  | .badJson => defaultGrade "JSON解析失败"
  | .exn msg => defaultGrade ("评估失败: " ++ msg)
  | .parsed v =>
    let scoresD := v.scores.getD []
    let score :=
      match v.score with
      | some s => s
      | none => (scoresD.map (fun p => p.2)).sum
    let reason := v.reason.getD "评估完成"
    let suggestion := v.suggestion.getD ""
    let depth_score := dictGetInt scoresD "depth" 0
    let citation_score := dictGetInt scoresD "citation" 0
    let evidence_score := dictGetInt scoresD "evidence" 0
    if depth_score < DEPTH_HARD_THRESHOLD then
      { scores := v.scores, score := score, passed := false
        fail_reason := some ("depth=" ++ toString depth_score ++ " < " ++
          toString DEPTH_HARD_THRESHOLD ++ " (硬性门槛)")
        reason := reason
        suggestion := if suggestion = "" then
          "答案深度不足，请调用 search_memory 获取具体剧情内容" else suggestion }
    else if citation_score < CITATION_HARD_THRESHOLD then
      { scores := v.scores, score := score, passed := false
        fail_reason := some ("citation=" ++ toString citation_score ++ " < " ++
          toString CITATION_HARD_THRESHOLD ++ " (硬性门槛)")
        reason := reason
        suggestion := if suggestion = "" then
          "答案缺乏来源引用，请在回答中明确引用 Chapter/Task ID" else suggestion }
    else if evidence_score < EVIDENCE_HARD_THRESHOLD then
      { scores := v.scores, score := score, passed := false
        fail_reason := some ("evidence=" ++ toString evidence_score ++ " < " ++
          toString EVIDENCE_HARD_THRESHOLD ++ " (硬性门槛)")
        reason := reason
        suggestion := if suggestion = "" then
          "答案证据支持不足，请确保回答基于工具返回的实际内容" else suggestion }
    else if SCORE_THRESHOLD ≤ score then
      { scores := v.scores, score := score, passed := true
        fail_reason := none, reason := reason, suggestion := suggestion }
    else
      { scores := v.scores, score := score, passed := false
        fail_reason := some ("score=" ++ toString score ++ " < " ++
          toString SCORE_THRESHOLD)
        reason := reason, suggestion := suggestion }

/-- The sub-score axes the `GRADER_PROMPT` output-format section demands
(src/src/agent/grader.py lines 134–148), in prompt order, each constrained
by the prompt to 0–20, with `score` constrained to 0–100. -/
def graderPromptAxes : List String :=
  ["tool_usage", "evidence", "completeness", "citation", "depth"]

/-- A parsed verdict that complies with `GRADER_PROMPT`: exactly the five
axes of the prompt's JSON schema, each 0–20, and a total score 0–100. -/
def promptCompliant (v : ParsedVerdict) : Prop :=
  (∃ l, v.scores = some l ∧ l.map (fun p => p.1) = graderPromptAxes ∧
    ∀ p ∈ l, 0 ≤ p.2 ∧ p.2 ≤ 20) ∧
  (∃ s, v.score = some s ∧ 0 ≤ s ∧ s ≤ 100)

/-- The property claimed of parsed verdicts: exactly the four axes
`tool_usage`, `completeness`, `citation`, `depth` (in any order), each
0–25, with total score 0–100. -/
def fourAxes025 (g : GradeResult) : Prop :=
  (∃ l, g.scores = some l ∧
    (l.map (fun p => p.1)).Perm ["tool_usage", "completeness", "citation", "depth"] ∧
    ∀ p ∈ l, 0 ≤ p.2 ∧ p.2 ≤ 25) ∧
  0 ≤ g.score ∧ g.score ≤ 100

/-! ## The query refiner (src/src/agent/refiner.py) -/

/-- The stop-word set of `QueryRefiner._fallback_queries` (line 118). -/
def refinerStopWords : List String :=
  ["是", "什么", "为什么", "怎么", "如何", "的", "和", "与", "吗", "呢", "了"]

/-- `QueryRefiner._fallback_queries` (src/src/agent/refiner.py lines
111–126).  Python's `for w in question` iterates over the *characters* of
the string (each `w` is a one-character string), so the filter keeps `w`
only when `w` is not a stop word **and** `len(w) > 1` — and a one-character
string always has length 1. -/
def fallbackQueries (question : String) : List String :=
  let words := (question.toList.map (fun c => String.mk [c])).filter
    (fun w => w ∉ refinerStopWords ∧ 1 < w.length)
  if 2 ≤ words.length then
    [question, " ".intercalate (words.take 3)]
  else [question]

/-- The refiner-LLM interaction outcome as classified inside
`QueryRefiner.refine`: a parsed JSON value that is a list of strings, a
parsed JSON value that is not a (non-empty) list, unparseable JSON, or any
other exception. -/
inductive RefinerResponse where
  | parsedList (arr : List String)
  | notAList
  | badJson
  | exn (msg : String)
  deriving DecidableEq, Repr

/-- `QueryRefiner.refine` (src/src/agent/refiner.py lines 66–109): return
the parsed array truncated to three entries when it is a non-empty list,
otherwise fall back to `_fallback_queries`. -/
def refine (question : String) (resp : RefinerResponse) : List String :=
  match resp with
  | .parsedList arr =>
    if 0 < arr.length then arr.take 3 else fallbackQueries question
  | .notAList => fallbackQueries question
  | .badJson => fallbackQueries question
  | .exn _ => fallbackQueries question

/-! ## The retry orchestrator's limit progression (src/src/agent/agent.py) -/

/-- `LIMIT_PROGRESSION` (src/src/agent/agent.py lines 26–30): the breadth
budget table `{1: 3, 2: 5, 3: 8}`. -/
def LIMIT_PROGRESSION : List (Nat × Nat) := [(1, 3), (2, 5), (3, 8)]

/-- `LIMIT_PROGRESSION.get(attempt, 5)` as used at line 414 of
`chat_with_grading`: the table value when the attempt index is a key,
otherwise the default `5`. -/
def limitForAttempt (attempt : Nat) : Nat :=
  match LIMIT_PROGRESSION.find? (fun p => p.1 == attempt) with
  | some p => p.2
  | none => 5

/-! ## Predicates the theorems are stated with -/

/-- "No two entries share a `(task_id, event_order)` key". -/
def NoDupKeys (l : List SearchResult) : Prop :=
  l.Pairwise (fun a b => dedupKey a ≠ dedupKey b)

/-- The vector store's answer contract relied on by `_deduplicate_results`
(its docstring: "results 已按 score 降序排列", results already sorted by
score descending): nearest-neighbour results arrive score-descending. -/
def ScoreSorted (l : List SearchResult) : Prop :=
  l.Pairwise (fun a b => b.score ≤ a.score)

/-- The data-model invariant (spec §3: a chunk carries task id, chapter
number, event ordinal; chunks of one event belong to one task in one
chapter): results sharing a `(task_id, event_order)` key agree on the
`(chapter_number, event_order)` time-sort key. -/
def KeyCoherent (l : List SearchResult) : Prop :=
  ∀ a ∈ l, ∀ b ∈ l, dedupKey a = dedupKey b → timeKey a = timeKey b

/-- Within every group of entries sharing a dedup key, scores are
non-increasing along the list (and the time keys agree).  This is the
invariant that survives the stable time sort. -/
def GroupOrdered (l : List SearchResult) : Prop :=
  l.Pairwise (fun a b => dedupKey a = dedupKey b →
    b.score ≤ a.score ∧ timeKey a = timeKey b)

/-! ## Concrete environments used as counterexamples and witnesses -/

/-- A graph-store state on which alias resolution is not idempotent: the
fulltext index maps the alias `"a"` to `"b"` and (for instance because
`"b"` is itself listed as an alias of a third node) maps `"b"` to `"c"`.
Nothing in the code constrains the index's answers on its own outputs. -/
def chainAliasEnv : AliasEnv :=
  { table := []
    graphResolve := fun s =>
      if s = "a" then .ok "b" else if s = "b" then .ok "c" else .ok s }

/-- An alias environment whose table and fulltext index are mutually
consistent: the index fixes every name, and the one table entry maps to a
canonical that is not itself a table key. -/
def idemAliasEnv : AliasEnv :=
  { table := [("少女", "哥伦比娅")], graphResolve := fun s => .ok s }

/-- An alias environment whose graph store raises on every call. -/
def faultyAliasEnv : AliasEnv :=
  { table := [("少女", "哥伦比娅")]
    graphResolve := fun _ => .error "connection refused" }

/-- A vector-store environment that returns no points at all. -/
def emptyStoreEnv : VectorStoreEnv :=
  { aliasEnv := { table := [], graphResolve := fun s => .ok s }
    query_points := fun _ _ _ => [] }

/-- A concrete score-descending, payload-coherent vector-store answer:
one event (`t1601`, ordinal 2) split across two chunks with scores 9 and
7, and a second event (`t1600`, ordinal 1) with score 5. -/
def rawExample : List SearchResult :=
  [⟨9, ⟨some "t1601", some 2, some 2, "第一段"⟩⟩,
    ⟨7, ⟨some "t1601", some 2, some 2, "第二段"⟩⟩,
    ⟨5, ⟨some "t1600", some 1, some 1, "第三段"⟩⟩]

/-- A parsed grader verdict exactly in the shape `GRADER_PROMPT` demands:
the five axes `tool_usage`, `evidence`, `completeness`, `citation`,
`depth`, each 0–20, and a total score 0–100. -/
def promptVerdictExample : ParsedVerdict :=
  { score := some 84
    scores := some [("tool_usage", 20), ("evidence", 15), ("completeness", 17),
      ("citation", 12), ("depth", 20)]
    reason := some "评估完成"
    suggestion := some "" }

/-! ## Helper lemmas about the grader -/

/-- Whatever threshold branch `AnswerGrader.grade` takes on a parsed
verdict, the returned dictionary's `scores` member is the parsed one,
untouched. -/
theorem grade_parsed_scores (v : ParsedVerdict) :
    (grade (.parsed v)).scores = v.scores := by
  simp only [grade]
  split_ifs <;> rfl

/-! ## C2: the depth hard floor forces a failing verdict -/

/-- C2.  For every grading outcome — parsed verdicts included, and also the
default verdicts built from unparseable LLM responses — if the verdict's
depth sub-score (read as the code reads it, `scores.get("depth", 0)`) is
below `DEPTH_HARD_THRESHOLD`, then the verdict has `passed = False`,
whatever the other sub-scores and the total score are. -/
theorem grade_depth_floor_forces_fail (resp : GraderLLMResponse)
    (h : depthOf (grade resp) < DEPTH_HARD_THRESHOLD) :
    (grade resp).passed = false := by
  cases resp with
  | noJson => rfl
  | badJson => rfl
  | exn msg => rfl
  | parsed v =>
    have hd : dictGetInt (v.scores.getD []) "depth" 0 < DEPTH_HARD_THRESHOLD := by
      have hdepth := h
      unfold depthOf at hdepth
      rwa [grade_parsed_scores] at hdepth
    simp only [grade]
    rw [if_pos hd]

/-- Witness for C2: a parsed verdict with a high total score (90) but depth
3 is failed by the depth floor. -/
theorem grade_depth_floor_forces_fail_witness :
    depthOf (grade (.parsed ⟨some 90, some [("tool_usage", 20),
      ("evidence", 20), ("completeness", 20), ("citation", 20), ("depth", 3)],
      none, none⟩)) < DEPTH_HARD_THRESHOLD ∧
    (grade (.parsed ⟨some 90, some [("tool_usage", 20),
      ("evidence", 20), ("completeness", 20), ("citation", 20), ("depth", 3)],
      none, none⟩)).passed = false :=
  ⟨by decide, grade_depth_floor_forces_fail _ (by decide)⟩

/-! ## C3: LLM failures degrade to the default fail verdict -/

/-- C3.  Each of the three failure outcomes of the grading-LLM interaction
— a response with no JSON object, a JSON parse error, and any other
exception — makes `AnswerGrader.grade` return `_default_grade` with the
code's diagnostic reason, and the default verdict has `passed = False`,
total score 0, every sub-score 0, and the reason recorded in
`fail_reason`.  In this embedding `grade` is a total function on the
outcome type, which is exactly the guarantee that no exception escapes to
the retry orchestrator. -/
theorem grade_failure_degrades_to_default :
    (∀ msg, grade (.exn msg) = defaultGrade ("评估失败: " ++ msg)) ∧
    grade .noJson = defaultGrade "无法解析评估结果" ∧
    grade .badJson = defaultGrade "JSON解析失败" ∧
    ∀ reason, (defaultGrade reason).passed = false ∧
      (defaultGrade reason).score = 0 ∧
      (defaultGrade reason).scores = some [("tool_usage", 0), ("evidence", 0),
        ("completeness", 0), ("citation", 0), ("depth", 0)] ∧
      (defaultGrade reason).fail_reason = some reason :=
  ⟨fun _ => rfl, rfl, rfl, fun _ => ⟨rfl, rfl, rfl, rfl⟩⟩

/-! ## C5: the retry limit progression -/

/-- Counterexample for C5.  The claim asserts `limit(k) ≥ limit(k-1)` for
every `2 ≤ k ≤ max_retries` and every `max_retries`; with
`max_retries = 4` and `k = 4` it fails, because
`LIMIT_PROGRESSION.get(4, 5)` falls back to the default 5 after attempt 3
used 8. -/
theorem limit_progression_claim_false_at_attempt4 :
    ¬ limitForAttempt 3 ≤ limitForAttempt 4 := by decide

/-- C5 as amended: within the attempts covered by the progression table
(`k ≤ 3`, which includes every run with the default `max_retries = 3`),
the `search_memory` limit never decreases from one attempt to the next. -/
theorem limit_progression_monotone_up_to_three (k : Nat)
    (h2 : 2 ≤ k) (h3 : k ≤ 3) :
    limitForAttempt (k - 1) ≤ limitForAttempt k := by
  interval_cases k <;> decide

/-- Witness for the amended C5 at `k = 3`. -/
theorem limit_progression_monotone_up_to_three_witness :
    2 ≤ 3 ∧ 3 ≤ 3 ∧ limitForAttempt 2 ≤ limitForAttempt 3 :=
  ⟨by decide, by decide,
    limit_progression_monotone_up_to_three 3 (by decide) (by decide)⟩

/-! ## C8: the refiner's keyword fallback -/

/-- `_fallback_queries` can never reach its two-query branch: iterating a
Python string yields one-character strings, and the filter requires
`len(w) > 1`, so `words` is always empty and the fallback always returns
the singleton `[question]`. -/
theorem fallbackQueries_eq_singleton (question : String) :
    fallbackQueries question = [question] := by
  unfold fallbackQueries
  have hw : ((question.toList.map (fun c => String.mk [c])).filter
      (fun w => decide (w ∉ refinerStopWords ∧ 1 < w.length))) = [] := by
    apply List.filter_eq_nil_iff.mpr
    intro w hwmem
    rcases List.mem_map.mp hwmem with ⟨c, _, rfl⟩
    have hlen : (String.mk [c]).length = 1 := rfl
    simp [hlen]
  rw [hw]
  simp

/-- C8.  Concrete evaluation at a failing input: when the refiner LLM's
output is unparseable JSON, `QueryRefiner.refine` falls back to
`_fallback_queries`, which returns a single search string (the question
itself), not the 2–3 targeted queries its own docstring and the spec
promise. -/
theorem refine_fallback_returns_one_query :
    refine "玛薇卡为什么要举办试炼" .badJson = ["玛薇卡为什么要举办试炼"] ∧
    (refine "玛薇卡为什么要举办试炼" .badJson).length = 1 := by
  have h := fallbackQueries_eq_singleton "玛薇卡为什么要举办试炼"
  constructor
  · simpa [refine] using h
  · simp [refine, h]

/-! ## C7: alias-resolution idempotence -/

/-- Counterexample for C7.  On the store state `chainAliasEnv` — the
fulltext index answers `"a" → "b"` and `"b" → "c"`, which no code in the
repository rules out — resolution is not idempotent:
`resolve("a") = "b"` but `resolve(resolve("a")) = "c"`. -/
theorem alias_resolution_not_idempotent :
    resolveCharacterAlias chainAliasEnv
        (resolveCharacterAlias chainAliasEnv "a") ≠
      resolveCharacterAlias chainAliasEnv "a" := by decide

/-- C7 as amended: resolution is idempotent provided the static table and
the fulltext index are mutually consistent, i.e. every canonical name
either of them can output is itself a fixed point of resolution.  (On
arbitrary store states — see the counterexample — this can fail.) -/
theorem alias_resolution_idempotent_of_consistent (env : AliasEnv)
    (htab : ∀ a c, tableLookup env.table a = some c →
      resolveCharacterAlias env c = c)
    (hgr : ∀ a c, tableLookup env.table a = none →
      env.graphResolve a = .ok c → resolveCharacterAlias env c = c)
    (name : String) :
    resolveCharacterAlias env (resolveCharacterAlias env name) =
      resolveCharacterAlias env name := by
  rcases h1 : tableLookup env.table name with _ | c
  · rcases h2 : env.graphResolve name with msg | c
    · have hfix : resolveCharacterAlias env name = name := by
        simp [resolveCharacterAlias, h1, h2]
      rw [hfix, hfix]
    · have hres : resolveCharacterAlias env name = c := by
        simp [resolveCharacterAlias, h1, h2]
      rw [hres, hgr name c h1 h2]
  · have hres : resolveCharacterAlias env name = c := by
      simp [resolveCharacterAlias, h1]
    rw [hres, htab name c h1]

/-- Witness for the amended C7 on `idemAliasEnv` (an identity fulltext
index and a table whose canonical is not itself a table key). -/
theorem alias_resolution_idempotent_witness :
    resolveCharacterAlias idemAliasEnv
        (resolveCharacterAlias idemAliasEnv "少女") =
      resolveCharacterAlias idemAliasEnv "少女" :=
  alias_resolution_idempotent_of_consistent idemAliasEnv
    (fun a c h => by
      have hc : c = "哥伦比娅" := by
        simp only [idemAliasEnv, tableLookup] at h
        rcases hf : List.find? (fun p => p.1 == a) [("少女", "哥伦比娅")]
          with _ | p
        · rw [hf] at h; simp at h
        · rw [hf] at h
          have hp : p = ("少女", "哥伦比娅") := by
            simpa using List.mem_of_find?_eq_some hf
          subst hp
          have h2 : some ("哥伦比娅" : String) = some c := h
          exact (Option.some_inj.mp h2).symm
      subst hc
      decide)
    (fun a c h1 h2 => by
      have hc : a = c := by simpa [idemAliasEnv] using h2
      subst hc
      unfold resolveCharacterAlias
      rw [h1]
      simp [idemAliasEnv])
    "少女"

/-! ## C9: `search_memory` with `limit = 0` -/

/-- Counterexample for C9.  `search_memory` does not reject `limit = 0`:
on a concrete store it performs a vector-store fetch (one fetch happens)
and renders the ordinary "not found" suggestion report; the function's
return shape has no error alternative at all. -/
theorem limit_zero_not_rejected :
    (searchMemory emptyStoreEnv "玛薇卡" none "relevance" 0).fetches = 1 ∧
    searchMemoryReportKind emptyStoreEnv "玛薇卡" none "relevance" 0 =
      .notFoundReport :=
  ⟨rfl, rfl⟩

/-- C9 as amended: with `limit = 0` the target becomes `min(0, 20) = 0`,
the expanding loop performs its first fetch and immediately stops
(`0 ≥ target`), the final slice `unique[:0]` is empty, and `search_memory`
returns the ordinary not-found report — for every store, query, character
filter and sort mode; no error is raised and no rejection happens. -/
theorem search_memory_limit_zero_behavior (env : VectorStoreEnv)
    (query : String) (characters : Option String) (sortBy : String) :
    (searchMemory env query characters sortBy 0).results = [] ∧
    1 ≤ (searchMemory env query characters sortBy 0).fetches ∧
    searchMemoryReportKind env query characters sortBy 0 = .notFoundReport := by
  have hres : ∀ qt filt,
      expandLoop env qt filt sortBy (min 0 20) (min 0 20 * 8) (min 0 20) 8
        ([], 0) =
        (deduplicateResults (indexerSearch env qt (min 0 20) filt sortBy), 1) := by
    intro qt filt
    simp [expandLoop]
  constructor
  · unfold searchMemory
    dsimp only
    rw [hres, hres]
    split <;> simp
  · constructor
    · unfold searchMemory
      dsimp only
      rw [hres, hres]
      split <;> simp
    · unfold searchMemoryReportKind
      rw [if_pos]
      unfold searchMemory
      dsimp only
      rw [hres, hres]
      split <;> simp

/-! ## C10: the alias helpers absorb graph-store faults -/

/-- `setInsert` preserves membership. -/
theorem mem_setInsert_of_mem {s : List String} {x y : String} (h : x ∈ s) :
    x ∈ setInsert s y := by
  unfold setInsert
  split
  · exact h
  · exact List.mem_append_left _ h

/-- The alias-collecting folds of `_get_all_character_names` preserve
membership. -/
theorem mem_addAliasesOf_of_mem (t : List (String × String)) (c : String)
    {s : List String} {x : String} (h : x ∈ s) : x ∈ addAliasesOf t c s := by
  induction t generalizing s with
  | nil => simpa [addAliasesOf] using h
  | cons p ps ih =>
    simp only [addAliasesOf, List.foldl_cons] at *
    by_cases hp : (p.2 == c) = true
    · simp only [hp, if_true]
      exact ih (mem_setInsert_of_mem h)
    · simp only [hp, if_false]
      exact ih h

/-- C10.  The alias helpers of `search_memory` absorb graph-store faults:
when the name misses the manual table and the graph call raises,
`_resolve_character_alias` returns the input unchanged; and for every
environment — graph faults included — `_get_all_character_names` returns a
list containing the input name.  Both are total functions of the modelled
fault outcome, which is the embedding of "never aborts on a graph-store
fault". -/
theorem alias_helpers_absorb_graph_faults (env : AliasEnv) (name : String) :
    (∀ msg, tableLookup env.table name = none →
      env.graphResolve name = .error msg →
      resolveCharacterAlias env name = name) ∧
    name ∈ getAllCharacterNames env name := by
  constructor
  · intro msg hmiss herr
    simp [resolveCharacterAlias, hmiss, herr]
  · unfold getAllCharacterNames
    have hbase : ∀ h : Option String,
        name ∈ (match h with
          | some canonical =>
            addAliasesOf env.table canonical (setInsert [name] canonical)
          | none => addAliasesOf env.table name [name]) := by
      intro h
      cases h with
      | some canonical =>
        exact mem_addAliasesOf_of_mem _ _
          (mem_setInsert_of_mem (List.mem_singleton.mpr rfl))
      | none =>
        exact mem_addAliasesOf_of_mem _ _ (List.mem_singleton.mpr rfl)
    rcases hg : env.graphResolve name with msg | canonical
    · simpa using hbase (tableLookup env.table name)
    · dsimp only
      split
      · exact mem_setInsert_of_mem (hbase (tableLookup env.table name))
      · exact hbase (tableLookup env.table name)

/-- Witness for C10 on `faultyAliasEnv`, whose graph store raises
"connection refused" on every call. -/
theorem alias_helpers_absorb_graph_faults_witness :
    resolveCharacterAlias faultyAliasEnv "旅行者" = "旅行者" ∧
    "旅行者" ∈ getAllCharacterNames faultyAliasEnv "旅行者" :=
  ⟨(alias_helpers_absorb_graph_faults faultyAliasEnv "旅行者").1
      "connection refused" (by decide) rfl,
    (alias_helpers_absorb_graph_faults faultyAliasEnv "旅行者").2⟩

/-! ## C1: the final `search_memory` result list has no duplicate keys -/

/-- Every key in the output of `dedupAux` was absent from `seen`. -/
theorem dedupAux_key_not_seen (l : List SearchResult) :
    ∀ (seen : List (Option String × Option Int)),
      ∀ r ∈ dedupAux seen l, dedupKey r ∉ seen := by
  induction l with
  | nil => intro seen r hr; simp [dedupAux] at hr
  | cons x xs ih =>
    intro seen r hr
    by_cases hx : dedupKey x ∈ seen
    · rw [dedupAux, if_pos hx] at hr
      exact ih seen r hr
    · rw [dedupAux, if_neg hx] at hr
      rcases List.mem_cons.mp hr with hr | hr
      · subst hr; exact hx
      · have := ih (dedupKey x :: seen) r hr
        exact fun hmem => this (List.mem_cons_of_mem _ hmem)

/-- The output of `dedupAux` carries pairwise-distinct keys. -/
theorem dedupAux_nodupKeys (l : List SearchResult) :
    ∀ (seen : List (Option String × Option Int)), NoDupKeys (dedupAux seen l) := by
  induction l with
  | nil => intro seen; simp [dedupAux, NoDupKeys]
  | cons x xs ih =>
    intro seen
    by_cases hx : dedupKey x ∈ seen
    · rw [dedupAux, if_pos hx]
      exact ih seen
    · rw [dedupAux, if_neg hx]
      refine List.Pairwise.cons ?_ (ih (dedupKey x :: seen))
      intro r hr
      have := dedupAux_key_not_seen xs (dedupKey x :: seen) r hr
      intro heq
      exact this (heq ▸ List.mem_cons_self _ _)

/-- `_deduplicate_results` never returns two entries with the same
`(task_id, event_order)` key. -/
theorem deduplicateResults_nodupKeys (l : List SearchResult) :
    NoDupKeys (deduplicateResults l) :=
  dedupAux_nodupKeys l []

/-- The expanding search loop only ever holds deduplicated result lists:
its output has pairwise-distinct keys as soon as its accumulator does. -/
theorem expandLoop_nodupKeys (env : VectorStoreEnv) (queryText : String)
    (filt : Option CharFilter) (sortBy : String) (targetLimit maxFetch : Nat) :
    ∀ (fuel fetchLimit : Nat) (acc : List SearchResult × Nat),
      NoDupKeys acc.1 →
      NoDupKeys (expandLoop env queryText filt sortBy targetLimit maxFetch
        fetchLimit fuel acc).1 := by
  intro fuel
  induction fuel with
  | zero => intro fetchLimit acc hacc; exact hacc
  | succ n ih =>
    intro fetchLimit acc hacc
    obtain ⟨unique, fetches⟩ := acc
    rw [expandLoop]
    split
    · dsimp only
      split
      · exact deduplicateResults_nodupKeys _
      · exact ih _ _ (deduplicateResults_nodupKeys _)
    · exact hacc

/-- C1.  For every store state, alias environment, query, character
filter, sort mode and limit, the final result list that `search_memory`
renders into its report contains no two entries with the same
`(task_id, event_order)` composite key — on the filtered path and on the
character-filter fallback path alike. -/
theorem search_memory_results_nodup_keys (env : VectorStoreEnv)
    (query : String) (characters : Option String) (sortBy : String)
    (limit : Nat) :
    NoDupKeys (searchMemory env query characters sortBy limit).results := by
  have hnil : NoDupKeys ([] : List SearchResult) := List.Pairwise.nil
  have htake : ∀ (l : List SearchResult) (n : Nat),
      NoDupKeys l → NoDupKeys (l.take n) :=
    fun l n h => h.sublist (List.take_sublist n l)
  unfold searchMemory
  dsimp only
  split
  · exact htake _ _ (expandLoop_nodupKeys env _ none sortBy _ _ 8 _ ([], 0) hnil)
  · exact htake _ _ (expandLoop_nodupKeys env query _ sortBy _ _ 8 _ ([], 0) hnil)

/-! ## C6: the shape of a parsed grader verdict -/

/-- When the parsed JSON carries a `score` field, the verdict's total
score is that field, whatever threshold branch is taken. -/
theorem grade_parsed_score_of_some (v : ParsedVerdict) (s : Int)
    (hs : v.score = some s) : (grade (.parsed v)).score = s := by
  simp only [grade, hs]
  split_ifs <;> rfl

/-- Counterexample for C6.  A grader response exactly in the shape the
code's own `GRADER_PROMPT` demands — the five axes `tool_usage`,
`evidence`, `completeness`, `citation`, `depth`, each 0–20 — parses
successfully, and the resulting verdict does **not** carry exactly four
sub-scores on the axes `tool_usage`, `completeness`, `citation`, `depth`
in the range 0–25: it carries five, including `evidence`. -/
theorem parsed_verdict_not_four_axes :
    ¬ fourAxes025 (grade (.parsed promptVerdictExample)) := by
  rintro ⟨⟨l, hl, hperm, -⟩, -⟩
  rw [grade_parsed_scores] at hl
  have hl5 : l = [("tool_usage", 20), ("evidence", 15), ("completeness", 17),
      ("citation", 12), ("depth", 20)] := by
    have : promptVerdictExample.scores = some l := hl
    simpa [promptVerdictExample] using this.symm
  subst hl5
  have hlen := hperm.length_eq
  simp at hlen

/-- C6 as amended: per the code's `GRADER_PROMPT`, a successfully parsed,
prompt-compliant grader verdict carries exactly **five** integer
sub-scores, on the axes `tool_usage`, `evidence`, `completeness`,
`citation`, `depth`, each in 0–20, together with a total score in 0–100;
`AnswerGrader.grade` passes them through unchanged (it performs no range
validation of its own). -/
theorem grade_prompt_compliant_five_axes (v : ParsedVerdict)
    (h : promptCompliant v) :
    (grade (.parsed v)).scores = v.scores ∧
    (∃ l, (grade (.parsed v)).scores = some l ∧
      l.map (fun p => p.1) = graderPromptAxes ∧
      ∀ p ∈ l, 0 ≤ p.2 ∧ p.2 ≤ 20) ∧
    0 ≤ (grade (.parsed v)).score ∧ (grade (.parsed v)).score ≤ 100 := by
  obtain ⟨⟨l, hl, hkeys, hbounds⟩, ⟨s, hs, hs0, hs100⟩⟩ := h
  have hscore := grade_parsed_score_of_some v s hs
  exact ⟨grade_parsed_scores v,
    ⟨l, by rw [grade_parsed_scores]; exact hl, hkeys, hbounds⟩,
    by rw [hscore]; exact hs0, by rw [hscore]; exact hs100⟩

/-- Witness for the amended C6 at the prompt-compliant example verdict. -/
theorem grade_prompt_compliant_five_axes_witness :
    promptCompliant promptVerdictExample ∧
    ((grade (.parsed promptVerdictExample)).scores =
        promptVerdictExample.scores ∧
      (∃ l, (grade (.parsed promptVerdictExample)).scores = some l ∧
        l.map (fun p => p.1) = graderPromptAxes ∧
        ∀ p ∈ l, 0 ≤ p.2 ∧ p.2 ≤ 20) ∧
      0 ≤ (grade (.parsed promptVerdictExample)).score ∧
        (grade (.parsed promptVerdictExample)).score ≤ 100) :=
  have hc : promptCompliant promptVerdictExample :=
    ⟨⟨[("tool_usage", 20), ("evidence", 15), ("completeness", 17),
        ("citation", 12), ("depth", 20)], rfl, rfl, by decide⟩,
      ⟨84, rfl, by decide, by decide⟩⟩
  ⟨hc, grade_prompt_compliant_five_axes promptVerdictExample hc⟩

/-! ## C4: deduplication keeps the highest-scoring chunk per key

The dedup keeps the *first* occurrence of every key.  On the relevance
path the input is the store's score-descending answer, so the first
occurrence is the highest-scoring one.  On the time path the input was
stably sorted by `(chapter_number, event_order)` first: results sharing a
dedup key share their time keys (payload coherence), so the stable sort
keeps each key group in its original score-descending internal order, key
groups stay contiguous in the sorted list, and the truncation to `limit`
keeps a prefix — so whenever the dedup keeps an entry of some key, every
entry of that key that sorted earlier would also be in the prefix, hence
the kept entry is again the group's first and highest-scoring one. -/

theorem timeKeyLE_refl (a : Int × Int) : timeKeyLE a a :=
  Or.inr ⟨rfl, le_refl _⟩

theorem timeKeyLE_total (a b : Int × Int) : timeKeyLE a b ∨ timeKeyLE b a := by
  rcases lt_trichotomy a.1 b.1 with h | h | h
  · exact Or.inl (Or.inl h)
  · rcases le_total a.2 b.2 with h2 | h2
    · exact Or.inl (Or.inr ⟨h, h2⟩)
    · exact Or.inr (Or.inr ⟨h.symm, h2⟩)
  · exact Or.inr (Or.inl h)

theorem timeKeyLE_trans {a b c : Int × Int} (h1 : timeKeyLE a b)
    (h2 : timeKeyLE b c) : timeKeyLE a c := by
  rcases h1 with h1 | ⟨h1, h1t⟩ <;> rcases h2 with h2 | ⟨h2, h2t⟩
  · exact Or.inl (h1.trans h2)
  · exact Or.inl (h2 ▸ h1)
  · exact Or.inl (h1 ▸ h2)
  · exact Or.inr ⟨h1.trans h2, h1t.trans h2t⟩

/-- An element refused by the insertion guard has a strictly different
time key. -/
theorem timeKey_ne_of_not_le {a b : Int × Int} (h : ¬ timeKeyLE a b) :
    a ≠ b := by
  intro heq
  exact h (heq ▸ timeKeyLE_refl a)

theorem mem_insertByTime {x a : SearchResult} :
    ∀ {l : List SearchResult}, a ∈ insertByTime x l ↔ a = x ∨ a ∈ l := by
  intro l
  induction l with
  | nil => simp [insertByTime]
  | cons y ys ih =>
    by_cases h : timeKeyLE (timeKey x) (timeKey y)
    · simp [insertByTime, h]
    · simp only [insertByTime, if_neg h, List.mem_cons, ih]
      tauto

theorem insertByTime_perm (x : SearchResult) (l : List SearchResult) :
    (insertByTime x l).Perm (x :: l) := by
  induction l with
  | nil => simp [insertByTime]
  | cons y ys ih =>
    by_cases h : timeKeyLE (timeKey x) (timeKey y)
    · simp [insertByTime, h]
    · rw [insertByTime, if_neg h]
      exact (ih.cons y).trans (List.Perm.swap x y ys)

theorem sortByTime_perm (l : List SearchResult) :
    (sortByTime l).Perm l := by
  induction l with
  | nil => simp [sortByTime]
  | cons x xs ih =>
    have h1 := insertByTime_perm x (sortByTime xs)
    exact h1.trans (ih.cons x)

/-- One stable insertion preserves the group-ordering invariant and
time-key sortedness. -/
theorem insertByTime_spec (x : SearchResult) :
    ∀ (l : List SearchResult),
      l.Pairwise (fun a b => dedupKey a = dedupKey b →
        b.score ≤ a.score ∧ timeKey a = timeKey b) →
      l.Pairwise (fun a b => timeKeyLE (timeKey a) (timeKey b)) →
      (∀ y ∈ l, dedupKey x = dedupKey y →
        y.score ≤ x.score ∧ timeKey x = timeKey y) →
      (insertByTime x l).Pairwise (fun a b => dedupKey a = dedupKey b →
          b.score ≤ a.score ∧ timeKey a = timeKey b) ∧
        (insertByTime x l).Pairwise
          (fun a b => timeKeyLE (timeKey a) (timeKey b)) := by
  intro l
  induction l with
  | nil =>
    intro _ _ _
    exact ⟨List.pairwise_singleton _ _, List.pairwise_singleton _ _⟩
  | cons y ys ih =>
    intro hG hS hx
    rcases List.pairwise_cons.mp hG with ⟨hGy, hGys⟩
    rcases List.pairwise_cons.mp hS with ⟨hSy, hSys⟩
    by_cases h : timeKeyLE (timeKey x) (timeKey y)
    · rw [insertByTime, if_pos h]
      constructor
      · exact List.pairwise_cons.mpr ⟨hx, hG⟩
      · refine List.pairwise_cons.mpr ⟨?_, hS⟩
        intro z hz
        rcases List.mem_cons.mp hz with hz | hz
        · exact hz ▸ h
        · exact timeKeyLE_trans h (hSy z hz)
    · rw [insertByTime, if_neg h]
      have hxys : ∀ z ∈ ys, dedupKey x = dedupKey z →
          z.score ≤ x.score ∧ timeKey x = timeKey z :=
        fun z hz => hx z (List.mem_cons_of_mem _ hz)
      obtain ⟨ihG, ihS⟩ := ih hGys hSys hxys
      constructor
      · refine List.pairwise_cons.mpr ⟨?_, ihG⟩
        intro z hz
        rcases mem_insertByTime.mp hz with hz | hz
        · subst hz
          intro hkey
          obtain ⟨-, htk⟩ := hx y (List.mem_cons_self _ _) hkey.symm
          exact absurd htk (timeKey_ne_of_not_le h)
        · exact hGy z hz
      · refine List.pairwise_cons.mpr ⟨?_, ihS⟩
        intro z hz
        rcases mem_insertByTime.mp hz with hz | hz
        · subst hz
          rcases timeKeyLE_total (timeKey z) (timeKey y) with hxy | hyx
          · exact absurd hxy h
          · exact hyx
        · exact hSy z hz

/-- The stable time sort preserves the group-ordering invariant (and
produces a time-key-sorted list). -/
theorem sortByTime_spec :
    ∀ (l : List SearchResult),
      l.Pairwise (fun a b => dedupKey a = dedupKey b →
        b.score ≤ a.score ∧ timeKey a = timeKey b) →
      (sortByTime l).Pairwise (fun a b => dedupKey a = dedupKey b →
          b.score ≤ a.score ∧ timeKey a = timeKey b) ∧
        (sortByTime l).Pairwise
          (fun a b => timeKeyLE (timeKey a) (timeKey b)) := by
  intro l
  induction l with
  | nil => exact fun _ => ⟨List.Pairwise.nil, List.Pairwise.nil⟩
  | cons x xs ih =>
    intro hG
    rcases List.pairwise_cons.mp hG with ⟨hx, hxs⟩
    obtain ⟨ihG, ihS⟩ := ih hxs
    have hx' : ∀ y ∈ sortByTime xs, dedupKey x = dedupKey y →
        y.score ≤ x.score ∧ timeKey x = timeKey y :=
      fun y hy => hx y ((sortByTime_perm xs).mem_iff.mp hy)
    have hstep := insertByTime_spec x (sortByTime xs) ihG ihS hx'
    exact hstep

/-- Membership in `dedupAux` output locates the element as the *first*
occurrence of its key: the input splits around it with no earlier entry
of the same key (and its key was not in `seen`). -/
theorem dedupAux_mem_split :
    ∀ (l : List SearchResult) (seen : List (Option String × Option Int))
      (r : SearchResult), r ∈ dedupAux seen l →
      dedupKey r ∉ seen ∧
      ∃ l₁ l₂, l = l₁ ++ r :: l₂ ∧ ∀ a ∈ l₁, dedupKey a ≠ dedupKey r := by
  intro l
  induction l with
  | nil => intro seen r hr; simp [dedupAux] at hr
  | cons x xs ih =>
    intro seen r hr
    by_cases hx : dedupKey x ∈ seen
    · rw [dedupAux, if_pos hx] at hr
      obtain ⟨hns, l₁, l₂, heq, hne⟩ := ih seen r hr
      refine ⟨hns, x :: l₁, l₂, by rw [heq]; rfl, ?_⟩
      intro a ha
      rcases List.mem_cons.mp ha with ha | ha
      · exact fun hk => hns ((((congrArg dedupKey ha).symm.trans hk)) ▸ hx)
      · exact hne a ha
    · rw [dedupAux, if_neg hx] at hr
      rcases List.mem_cons.mp hr with hr | hr
      · subst hr
        exact ⟨hx, [], xs, rfl, by simp⟩
      · obtain ⟨hns, l₁, l₂, heq, hne⟩ := ih _ r hr
        have hnotin : dedupKey r ∉ seen :=
          fun hmem => hns (List.mem_cons_of_mem _ hmem)
        have hnex : dedupKey r ≠ dedupKey x := by
          intro hk
          exact hns (by rw [hk]; exact List.mem_cons_self _ _)
        refine ⟨hnotin, x :: l₁, l₂, by rw [heq]; rfl, ?_⟩
        intro a ha
        rcases List.mem_cons.mp ha with ha | ha
        · exact fun hk => hnex (hk.symm.trans (congrArg dedupKey ha))
        · exact hne a ha

/-- In a group-score-ordered list, the first occurrence of a key carries
the maximal score of its key group. -/
theorem score_max_of_first_of_key (m : List SearchResult)
    (hGW : m.Pairwise (fun a b => dedupKey a = dedupKey b →
      b.score ≤ a.score))
    (r : SearchResult) (l₁ l₂ : List SearchResult)
    (hm : m = l₁ ++ r :: l₂)
    (hfirst : ∀ a ∈ l₁, dedupKey a ≠ dedupKey r) :
    ∀ s ∈ m, dedupKey s = dedupKey r → s.score ≤ r.score := by
  subst hm
  intro s hs hkey
  rcases List.mem_append.mp hs with hs | hs
  · exact absurd hkey (hfirst s hs)
  · rcases List.mem_cons.mp hs with hs | hs
    · exact le_of_eq (congrArg SearchResult.score hs)
    · have hpair := (List.pairwise_append.mp hGW).2.1
      exact (List.pairwise_cons.mp hpair).1 s hs hkey.symm

/-- C4.  Assuming the vector store's contract (its answer is
score-descending, as `_deduplicate_results`'s docstring records) and the
data-model invariant that chunks sharing a `(task_id, event_order)` key
agree on `(chapter_number, event_order)`, the deduplication performed by
`search_memory` keeps, for every key, an entry of the raw answer whose
score is maximal among all raw entries of that key — in
`sort_by="relevance"` mode (where the raw answer is deduplicated as is)
and in `sort_by="time"` mode (where `VectorIndexer.search` stably
time-sorts and truncates first) alike. -/
theorem dedup_keeps_highest_score_per_key (sortBy : String) (limit : Nat)
    (raw : List SearchResult) (hsorted : ScoreSorted raw)
    (hcoh : KeyCoherent raw) :
    ∀ r ∈ deduplicateResults (postProcess sortBy limit raw),
      r ∈ raw ∧
      ∀ s ∈ raw, dedupKey s = dedupKey r → s.score ≤ r.score := by
  have hsorted' : raw.Pairwise (fun a b => b.score ≤ a.score) := hsorted
  have hPR : raw.Pairwise (fun a b => dedupKey a = dedupKey b →
      b.score ≤ a.score ∧ timeKey a = timeKey b) := by
    refine List.Pairwise.imp_of_mem ?_ hsorted'
    intro a b ha hb hab
    exact fun hk => ⟨hab, hcoh a ha b hb hk⟩
  unfold postProcess
  by_cases ht : sortBy = "time"
  · rw [if_pos ht]
    intro r hr
    obtain ⟨-, l₁, l₂, heq, hfirst⟩ := dedupAux_mem_split _ [] r hr
    obtain ⟨hmG, -⟩ := sortByTime_spec raw hPR
    have hmGW : (sortByTime raw).Pairwise
        (fun a b => dedupKey a = dedupKey b → b.score ≤ a.score) :=
      hmG.imp (fun h hk => (h hk).1)
    have hext : sortByTime raw =
        l₁ ++ r :: (l₂ ++ (sortByTime raw).drop limit) := by
      conv_lhs => rw [← List.take_append_drop limit (sortByTime raw)]
      rw [heq]
      simp [List.append_assoc]
    have hmax := score_max_of_first_of_key (sortByTime raw) hmGW r l₁ _
      hext hfirst
    have hrm : r ∈ sortByTime raw := by
      rw [hext]
      exact List.mem_append.mpr (Or.inr (List.mem_cons_self _ _))
    refine ⟨(sortByTime_perm raw).mem_iff.mp hrm, ?_⟩
    intro s hs hk
    exact hmax s ((sortByTime_perm raw).mem_iff.mpr hs) hk
  · rw [if_neg ht]
    intro r hr
    obtain ⟨-, l₁, l₂, heq, hfirst⟩ := dedupAux_mem_split _ [] r hr
    have hGW : raw.Pairwise
        (fun a b => dedupKey a = dedupKey b → b.score ≤ a.score) := by
      refine List.Pairwise.imp ?_ hsorted'
      intro a b h
      exact fun _ => h
    have hmax := score_max_of_first_of_key raw hGW r l₁ l₂ heq hfirst
    have hrm : r ∈ raw := by
      rw [heq]
      exact List.mem_append.mpr (Or.inr (List.mem_cons_self _ _))
    exact ⟨hrm, fun s hs hk => hmax s hs hk⟩

/-- Witness for C4 in `sort_by="time"` mode on `rawExample`: the split
event keeps its score-9 chunk, the other event its score-5 chunk. -/
theorem dedup_keeps_highest_score_per_key_witness :
    ScoreSorted rawExample ∧ KeyCoherent rawExample ∧
    ∀ r ∈ deduplicateResults (postProcess "time" 2 rawExample),
      r ∈ rawExample ∧
      ∀ s ∈ rawExample, dedupKey s = dedupKey r → s.score ≤ r.score :=
  ⟨by unfold ScoreSorted; decide, by unfold KeyCoherent; decide,
    dedup_keeps_highest_score_per_key "time" 2 rawExample
      (by unfold ScoreSorted; decide) (by unfold KeyCoherent; decide)⟩

end GenshinProof
